import Mathlib

/-!
Verification development for the `pylibjpeg-j2k` repository.

The repository's own code (`src/openjpeg/utils.py`) is two functions:

  def get_openjpeg_version():
      version = _openjpeg.get_version().decode('ascii').split('.')
      return tuple([int(ii) for ii in version])

  def decode(arr, nr_bytes):
      return _openjpeg.opj_decode(arr, nr_bytes)

Both delegate to the compiled extension `_openjpeg`, whose source is not in
the repository snapshot; the extension's behaviour is modelled from the
specification where a property depends on it, and each such definition is
marked `Modelled from the spec:`.

Embedding conventions:
  - a Python `bytes` value holding image data is a `List Nat` (each entry a
    byte value);
  - the byte string returned by the native `get_version` is a `List Char`
    (each with code point below 256), so that `bytes.decode('ascii')` is the
    identity on the ASCII range;
  - fallible Python code is embedded in `Except PyError`;
  - the module's global namespace is threaded explicitly as a `World` value
    where a claim is about state across calls.
-/

namespace OpenJpeg

/-- The Python exception kinds that appear in this development: the built-in
exceptions the wrapper code can raise, and the error taxonomy of spec §7 for
the modelled native pipeline. -/
inductive PyError where
  | unicodeDecodeError
  | valueError
  | truncatedStream
  | invalidMarker
  | unsupportedFeature
  | corruptCodeblock
  | geometryMismatch
  deriving DecidableEq

/-- ASCII whitespace stripped by Python's `int(str)` conversion. -/
def isWsChar (c : Char) : Bool :=
  c = ' ' || c = '\t' || c = '\n' || c = '\r' || c = Char.ofNat 11 || c = Char.ofNat 12

/-- Strip leading and trailing whitespace, as `int(str)` does before parsing. -/
def stripWs (s : List Char) : List Char :=
  ((s.dropWhile isWsChar).reverse.dropWhile isWsChar).reverse

/-- Numeric value of a decimal digit character. -/
def digitVal (c : Char) : Nat := c.toNat - 48

/-- Value of a decimal digit string, most significant digit first. -/
def digitsVal (l : List Char) : Nat := l.foldl (fun a c => 10 * a + digitVal c) 0

/-- After the first digit of a Python decimal integer literal: digits, with
single underscores allowed between digits (Python ≥ 3.6 grammar
`digit (["_"] digit)*`). -/
def digitTail : List Char → Bool
  | [] => true
  | [c] => if c = '_' then false else c.isDigit
  | c :: d :: rest =>
    if c = '_' then d.isDigit && digitTail rest
    else c.isDigit && digitTail (d :: rest)

/-- The `digitpart` of Python's integer-literal grammar: nonempty, starts with
a digit, underscores only between digits. -/
def digitpartOk : List Char → Bool
  | [] => false
  | c :: rest => c.isDigit && digitTail rest

/-- Value denoted by a valid digitpart: underscores are ignored. -/
def digitsInt (l : List Char) : Int :=
  Int.ofNat (digitsVal (l.filter (fun c => c != '_')))

/-- Sign-and-digitpart stage of Python's `int(str)`, applied to the
whitespace-stripped argument. -/
def pyIntCore : List Char → Except PyError Int
  | [] => .error .valueError
  | c :: rest =>
    if c = '+' then
      if digitpartOk rest then .ok (digitsInt rest) else .error .valueError
    else if c = '-' then
      if digitpartOk rest then .ok (-digitsInt rest) else .error .valueError
    else
      if digitpartOk (c :: rest) then .ok (digitsInt (c :: rest))
      else .error .valueError

/-- Python's built-in `int(str)`: strips whitespace, accepts an optional sign
followed by a decimal digitpart, and raises `ValueError` otherwise. -/
def pyInt (s : List Char) : Except PyError Int :=
  pyIntCore (stripWs s)

/-- Python's `str.split('.')`: splits on each occurrence of the separator,
keeping empty fields, so the result always has one more field than there are
separators. -/
def splitDot : List Char → List (List Char)
  | [] => [[]]
  | c :: rest =>
    match splitDot rest with
    | [] => [[]]
    | f :: fs => if c = '.' then [] :: f :: fs else (c :: f) :: fs

/-- The list comprehension `[f(x) for x in l]` over fallible `f`: elements are
converted left to right and the first exception propagates. -/
def mapE (f : α → Except PyError β) : List α → Except PyError (List β)
  | [] => .ok []
  | x :: xs =>
    match f x with
    | .error e => .error e
    | .ok y =>
      match mapE f xs with
      | .error e => .error e
      | .ok ys => .ok (y :: ys)

/-- Python's `bytes.decode('ascii')`: succeeds (as the identity, under the
byte-string-as-chars convention) when every byte is below 128, and raises
`UnicodeDecodeError` otherwise. -/
def ascii_decode (bs : List Char) : Except PyError (List Char) :=
  if bs.all (fun c => c.toNat < 128) then .ok bs else .error .unicodeDecodeError

/-- Embedding of `get_openjpeg_version` from `src/openjpeg/utils.py` lines
6-9, as a function of the byte string returned by the native
`_openjpeg.get_version()`:

    version = _openjpeg.get_version().decode('ascii').split('.')
    return tuple([int(ii) for ii in version])

The returned tuple is embedded as a `List Int`. -/
def get_openjpeg_version (nativeBytes : List Char) : Except PyError (List Int) :=
  match ascii_decode nativeBytes with
  | .error e => .error e
  | .ok s =>
    match mapE pyInt (splitDot s) with
    | .error e => .error e
    | .ok ints => .ok ints

/-- The character for a single decimal digit (argument taken modulo 10). -/
def digitChar (d : Nat) : Char := Char.ofNat (48 + d % 10)

/-- Decimal digits of a positive number, least significant first. -/
def natDigitsRev : Nat → List Char
  | 0 => []
  | n + 1 => digitChar ((n + 1) % 10) :: natDigitsRev ((n + 1) / 10)
decreasing_by exact Nat.div_lt_self (Nat.succ_pos n) (by omega)

/-- Standard decimal rendering of a natural number. -/
def natToChars (n : Nat) : List Char :=
  if n = 0 then ['0'] else (natDigitsRev n).reverse

/-- Modelled from the spec: the native extension `_openjpeg.get_version` is
not under `src/`; per spec §6 (`getVersion() -> (major, minor, patch)`) it
reports the wrapped library's version, which reaches the Python wrapper as
the ASCII byte string `"major.minor.patch"`. -/
def native_get_version (major minor patch : Nat) : List Char :=
  natToChars major ++ ('.' :: (natToChars minor ++ ('.' :: natToChars patch)))

/-- Modelled from the spec: the `ImageHeader` of spec §3 — geometry and
sample format parsed from the codestream's SIZ segment (tiling and colour
fields are not needed by any claim and are omitted). -/
structure ImageHeader where
  width : Nat
  height : Nat
  components : Nat
  bitDepth : Nat
  deriving DecidableEq

/-- The `PixelBuffer` of spec §6: width, height, component count, bit depth,
and a flat row-major sample array. -/
structure PixelBuffer where
  width : Nat
  height : Nat
  components : Nat
  bitDepth : Nat
  samples : List Nat
  deriving DecidableEq

/-- Modelled from the spec: the codestream parser (spec §4.2), implemented in
the `_openjpeg` extension and not under `src/`. The SOC marker (0xFF 0x4F)
must come first, else `InvalidMarkerError`; the SIZ data supplies width,
height, component count and bit depth, subject to the `ImageHeader`
invariants of spec §3 (width/height > 0, component count ≥ 1); a codestream
that ends before the header is complete is a `TruncatedStreamError`. -/
def parseCodestream (buf : List Nat) : Except PyError ImageHeader :=
  match buf with
  | 0xFF :: 0x4F :: w :: h :: c :: b :: _ =>
    if 0 < w ∧ 0 < h ∧ 0 < c then .ok ⟨w, h, c, b⟩ else .error .invalidMarker
  | 0xFF :: 0x4F :: _ => .error .truncatedStream
  | _ => .error .invalidMarker

/-- Modelled from the spec: the entropy-decoding, inverse-wavelet and
assembly stages (spec §4.3-§4.5), implemented in the `_openjpeg` extension
and not under `src/`. The stages are abstracted to their orchestration-level
contract: a codestream truncated before all codeblock data is present fails
with `CorruptCodeblockError` rather than yielding a partial result, and a
successful decode yields exactly width × height × components samples, each
within the declared bit depth. -/
def decodePipeline (hdr : ImageHeader) (payload : List Nat) : Except PyError (List Nat) :=
  if payload.length < hdr.width * hdr.height * hdr.components then
    .error .corruptCodeblock
  else
    .ok ((payload.take (hdr.width * hdr.height * hdr.components)).map
      (fun x => x % 2 ^ hdr.bitDepth))

/-- Modelled from the spec: the native `_openjpeg.opj_decode`, the decode
orchestrator of spec §4.6, not under `src/`. It validates
`len(buffer) == expectedByteCount` before invoking the parser, drives
parser → pipeline, checks the reconstructed sample count against the header
(`GeometryMismatchError`, spec §4.5), and returns a `PixelBuffer` whose
shape and dtype match the parsed `ImageHeader`; every component failure is
returned unchanged. -/
def opj_decode (buffer : List Nat) (nr_bytes : Int) : Except PyError PixelBuffer :=
  if (buffer.length : Int) ≠ nr_bytes then .error .valueError
  else
    match parseCodestream buffer with
    | .error e => .error e
    | .ok hdr =>
      match decodePipeline hdr (buffer.drop 6) with
      | .error e => .error e
      | .ok samples =>
        if samples.length ≠ hdr.width * hdr.height * hdr.components then
          .error .geometryMismatch
        else
          .ok ⟨hdr.width, hdr.height, hdr.components, hdr.bitDepth, samples⟩

/-- Embedding of `decode` from `src/openjpeg/utils.py` lines 11-12:

    def decode(arr, nr_bytes):
        return _openjpeg.opj_decode(arr, nr_bytes)
-/
def decode (arr : List Nat) (nr_bytes : Int) : Except PyError PixelBuffer :=
  opj_decode arr nr_bytes

/-- The module-level mutable state visible to `decode`: the global namespace
of `openjpeg.utils`, embedded as a name-to-value store. The module declares
no mutable global of its own, so the store's contents are arbitrary. -/
def World := List (String × Int)

/-- State-passing embedding of `decode`: the body
`return _openjpeg.opj_decode(arr, nr_bytes)` contains no assignment to and
no read of any module-level name other than the function references
themselves, so the global store passes through unchanged. That the native
call itself keeps no cross-call state is modelled from the spec (§3:
"No state persists across independent decode calls (no shared mutable
global)"), the extension's source being absent from `src/`. -/
def decodeSt (w : World) (arr : List Nat) (nr_bytes : Int) :
    Except PyError PixelBuffer × World :=
  (opj_decode arr nr_bytes, w)

/-! ### Helper lemmas: decimal digit characters -/

theorem digitChar_props (m : Nat) :
    (digitChar m).isDigit = true ∧ (digitChar m).toNat < 128 ∧
    digitChar m ≠ '_' ∧ digitChar m ≠ '.' ∧ digitChar m ≠ '+' ∧
    digitChar m ≠ '-' ∧ isWsChar (digitChar m) = false := by
  have h : m % 10 < 10 := Nat.mod_lt _ (by omega)
  unfold digitChar
  set r := m % 10 with hr
  interval_cases r <;> exact ⟨by decide, by decide, by decide, by decide,
    by decide, by decide, by decide⟩

theorem digitVal_digitChar (m : Nat) : digitVal (digitChar m) = m % 10 := by
  have h : m % 10 < 10 := Nat.mod_lt _ (by omega)
  unfold digitVal digitChar
  set r := m % 10 with hr
  interval_cases r <;> decide

theorem mem_natDigitsRev (n : Nat) : ∀ c ∈ natDigitsRev n, ∃ m, c = digitChar m := by
  induction n using Nat.strong_induction_on with
  | _ n ih =>
    match n with
    | 0 => intro c hc; simp [natDigitsRev] at hc
    | k + 1 =>
      intro c hc
      rw [natDigitsRev] at hc
      rcases List.mem_cons.mp hc with h | h
      · exact ⟨(k + 1) % 10, h⟩
      · exact ih ((k + 1) / 10) (Nat.div_lt_self (Nat.succ_pos k) (by omega)) c h

theorem mem_natToChars (n : Nat) : ∀ c ∈ natToChars n, ∃ m, c = digitChar m := by
  intro c hc
  unfold natToChars at hc
  split at hc
  · simp at hc
    exact ⟨0, by rw [hc]; decide⟩
  · exact mem_natDigitsRev n c (List.mem_reverse.mp hc)

theorem natToChars_good (n : Nat) :
    ∀ c ∈ natToChars n, c.isDigit = true ∧ c.toNat < 128 ∧
      c ≠ '_' ∧ c ≠ '.' ∧ c ≠ '+' ∧ c ≠ '-' ∧ isWsChar c = false := by
  intro c hc
  obtain ⟨m, hm⟩ := mem_natToChars n c hc
  rw [hm]
  exact digitChar_props m

theorem natToChars_ne_nil (n : Nat) : natToChars n ≠ [] := by
  unfold natToChars
  split
  · simp
  · match n with
    | 0 => simp_all
    | k + 1 => rw [natDigitsRev]; simp

theorem foldr_natDigitsRev (n : Nat) :
    (natDigitsRev n).foldr (fun c a => 10 * a + digitVal c) 0 = n := by
  induction n using Nat.strong_induction_on with
  | _ n ih =>
    match n with
    | 0 => simp [natDigitsRev]
    | k + 1 =>
      rw [natDigitsRev, List.foldr_cons,
        ih ((k + 1) / 10) (Nat.div_lt_self (Nat.succ_pos k) (by omega)),
        digitVal_digitChar]
      omega

theorem digitsVal_natToChars (n : Nat) : digitsVal (natToChars n) = n := by
  unfold natToChars
  split
  · simp_all [digitsVal, digitVal]
  · unfold digitsVal
    rw [List.foldl_reverse]
    exact foldr_natDigitsRev n

/-! ### Helper lemmas: `pyInt` on digit strings -/

theorem dropWhile_eq_self_of (p : Char → Bool) (l : List Char)
    (h : ∀ c ∈ l, p c = false) : l.dropWhile p = l := by
  cases l with
  | nil => rfl
  | cons c t =>
    rw [List.dropWhile_cons, h c (List.mem_cons_self c t)]
    simp

theorem stripWs_eq_self (l : List Char) (h : ∀ c ∈ l, isWsChar c = false) :
    stripWs l = l := by
  unfold stripWs
  rw [dropWhile_eq_self_of _ _ h,
    dropWhile_eq_self_of _ _ (fun c hc => h c (List.mem_reverse.mp hc)),
    List.reverse_reverse]

theorem digitTail_of_digits (l : List Char)
    (h : ∀ c ∈ l, c.isDigit = true ∧ c ≠ '_') : digitTail l = true := by
  induction l with
  | nil => rfl
  | cons c t ih =>
    have hc := h c (List.mem_cons_self c t)
    cases t with
    | nil => rw [digitTail, if_neg hc.2]; exact hc.1
    | cons d r =>
      rw [digitTail, if_neg hc.2, hc.1,
        ih (fun x hx => (h x (List.mem_cons_of_mem c hx)))]
      rfl

theorem digitpartOk_natToChars (n : Nat) : digitpartOk (natToChars n) = true := by
  obtain ⟨c, rest, hcr⟩ := List.exists_cons_of_ne_nil (natToChars_ne_nil n)
  have hgood := natToChars_good n
  rw [hcr, digitpartOk, (hgood c (hcr ▸ List.mem_cons_self c rest)).1,
    digitTail_of_digits rest (fun x hx =>
      ⟨(hgood x (hcr ▸ List.mem_cons_of_mem c hx)).1,
       (hgood x (hcr ▸ List.mem_cons_of_mem c hx)).2.2.1⟩)]
  rfl

theorem filter_natToChars (n : Nat) :
    (natToChars n).filter (fun c => c != '_') = natToChars n := by
  rw [List.filter_eq_self]
  intro c hc
  simpa using (natToChars_good n c hc).2.2.1

theorem pyInt_natToChars (n : Nat) : pyInt (natToChars n) = .ok (Int.ofNat n) := by
  have hgood := natToChars_good n
  have hstrip : stripWs (natToChars n) = natToChars n :=
    stripWs_eq_self _ (fun c hc => (hgood c hc).2.2.2.2.2.2)
  obtain ⟨c, rest, hcr⟩ := List.exists_cons_of_ne_nil (natToChars_ne_nil n)
  have hcmem : c ∈ natToChars n := hcr ▸ List.mem_cons_self c rest
  have hpart : digitpartOk (c :: rest) = true := hcr ▸ digitpartOk_natToChars n
  unfold pyInt
  rw [hstrip, hcr, pyIntCore,
    if_neg (hgood c hcmem).2.2.2.2.1, if_neg (hgood c hcmem).2.2.2.2.2.1,
    if_pos hpart]
  unfold digitsInt
  rw [← hcr, filter_natToChars, digitsVal_natToChars]

/-! ### Helper lemmas: `splitDot` and `mapE` -/

theorem splitDot_ne_nil (l : List Char) : splitDot l ≠ [] := by
  cases l with
  | nil => simp [splitDot]
  | cons c rest =>
    rw [splitDot]
    cases h : splitDot rest with
    | nil => simp
    | cons f fs => by_cases hc : c = '.' <;> simp [hc]

theorem splitDot_append (f rest : List Char) (hf : ∀ c ∈ f, c ≠ '.') :
    splitDot (f ++ '.' :: rest) = f :: splitDot rest := by
  induction f with
  | nil =>
    obtain ⟨g, gs, hg⟩ := List.exists_cons_of_ne_nil (splitDot_ne_nil rest)
    simp [splitDot, hg]
  | cons c t ih =>
    have hc : c ≠ '.' := hf c (List.mem_cons_self c t)
    rw [List.cons_append, splitDot, ih (fun x hx => hf x (List.mem_cons_of_mem c hx))]
    simp [hc]

theorem splitDot_single (f : List Char) (hf : ∀ c ∈ f, c ≠ '.') :
    splitDot f = [f] := by
  induction f with
  | nil => rfl
  | cons c t ih =>
    have hc : c ≠ '.' := hf c (List.mem_cons_self c t)
    rw [splitDot, ih (fun x hx => hf x (List.mem_cons_of_mem c hx))]
    simp [hc]

theorem splitDot_native (M m p : Nat) :
    splitDot (native_get_version M m p) =
      [natToChars M, natToChars m, natToChars p] := by
  unfold native_get_version
  rw [splitDot_append _ _ (fun c hc => (natToChars_good M c hc).2.2.2.1),
    splitDot_append _ _ (fun c hc => (natToChars_good m c hc).2.2.2.1),
    splitDot_single _ (fun c hc => (natToChars_good p c hc).2.2.2.1)]

theorem mapE_length {α β : Type} (f : α → Except PyError β) (l : List α)
    (ys : List β) (h : mapE f l = .ok ys) : ys.length = l.length := by
  induction l generalizing ys with
  | nil =>
    rw [mapE] at h
    cases h
    rfl
  | cons x xs ih =>
    rw [mapE] at h
    cases hx : f x with
    | error e => rw [hx] at h; cases h
    | ok y =>
      rw [hx] at h
      cases hm : mapE f xs with
      | error e => rw [hm] at h; cases h
      | ok ys2 =>
        rw [hm] at h
        cases h
        simp [ih ys2 hm]

theorem mapE_ok_mem {α β : Type} (f : α → Except PyError β) (l : List α)
    (ys : List β) (h : mapE f l = .ok ys) : ∀ x ∈ l, ∃ y, f x = .ok y := by
  induction l generalizing ys with
  | nil => intro x hx; simp at hx
  | cons a xs ih =>
    intro x hx
    rw [mapE] at h
    cases ha : f a with
    | error e => rw [ha] at h; cases h
    | ok y =>
      rw [ha] at h
      cases hm : mapE f xs with
      | error e => rw [hm] at h; cases h
      | ok ys2 =>
        rcases List.mem_cons.mp hx with rfl | hx2
        · exact ⟨y, ha⟩
        · exact ih ys2 hm x hx2

theorem pyInt_error (s : List Char) (e : PyError) (h : pyInt s = .error e) :
    e = .valueError := by
  unfold pyInt at h
  cases ht : stripWs s with
  | nil => rw [ht, pyIntCore] at h; cases h; rfl
  | cons c rest =>
    rw [ht, pyIntCore] at h
    split_ifs at h <;> (try cases h) <;> rfl

theorem mapE_pyInt_error (l : List (List Char)) (e : PyError)
    (h : mapE pyInt l = .error e) : e = .valueError := by
  induction l with
  | nil => rw [mapE] at h; cases h
  | cons x xs ih =>
    rw [mapE] at h
    cases hx : pyInt x with
    | error e2 =>
      rw [hx] at h
      cases h
      exact pyInt_error x e hx
    | ok y =>
      rw [hx] at h
      cases hm : mapE pyInt xs with
      | error e2 => rw [hm] at h; cases h; exact ih hm
      | ok ys => rw [hm] at h; cases h

/-! ### Helper lemmas: successful decodes -/

theorem opj_decode_ok (arr : List Nat) (n : Int) (buf : PixelBuffer)
    (h : opj_decode arr n = .ok buf) :
    ∃ hdr, parseCodestream arr = .ok hdr ∧
      buf.width = hdr.width ∧ buf.height = hdr.height ∧
      buf.components = hdr.components ∧ buf.bitDepth = hdr.bitDepth ∧
      buf.samples.length = hdr.width * hdr.height * hdr.components ∧
      ∀ s ∈ buf.samples, s < 2 ^ hdr.bitDepth := by
  unfold opj_decode at h
  split at h
  · cases h
  · split at h
    · cases h
    · rename_i hdr hp
      split at h
      · cases h
      · rename_i samples hd
        split at h
        · cases h
        · rename_i hlen
          cases h
          refine ⟨hdr, hp, rfl, rfl, rfl, rfl, ?_, ?_⟩
          · show samples.length = hdr.width * hdr.height * hdr.components
            omega
          · intro s hs
            unfold decodePipeline at hd
            split at hd
            · cases hd
            · cases hd
              obtain ⟨x, _, hx⟩ := List.mem_map.mp hs
              rw [← hx]
              exact Nat.mod_lt x (Nat.pos_pow_of_pos hdr.bitDepth (by omega))

theorem mapE_cons_ok {α β : Type} (f : α → Except PyError β) (x : α)
    (xs : List α) (y : β) (ys : List β) (hx : f x = .ok y)
    (hxs : mapE f xs = .ok ys) : mapE f (x :: xs) = .ok (y :: ys) := by
  rw [mapE, hx, hxs]

theorem gv_eq_ok (bs : List Char) (l : List Int)
    (hall : bs.all (fun c => c.toNat < 128) = true)
    (hm : mapE pyInt (splitDot bs) = .ok l) :
    get_openjpeg_version bs = .ok l := by
  unfold get_openjpeg_version ascii_decode
  rw [if_pos hall]
  show (match mapE pyInt (splitDot bs) with
    | Except.error e => (Except.error e : Except PyError (List Int))
    | Except.ok ints => Except.ok ints) = Except.ok l
  rw [hm]

theorem gv_error_classified (bs : List Char) (e : PyError)
    (h : get_openjpeg_version bs = .error e) :
    e = .unicodeDecodeError ∨ e = .valueError := by
  unfold get_openjpeg_version at h
  split at h
  · rename_i e2 ha
    cases h
    unfold ascii_decode at ha
    split at ha
    · cases ha
    · cases ha
      left
      rfl
  · rename_i s ha
    split at h
    · rename_i e2 hm
      cases h
      right
      exact mapE_pyInt_error _ _ hm
    · cases h

theorem ascii_decode_ok_eq (bs s : List Char) (h : ascii_decode bs = .ok s) :
    s = bs ∧ bs.all (fun c => c.toNat < 128) = true := by
  unfold ascii_decode at h
  split at h
  · cases h
    rename_i hall
    exact ⟨rfl, hall⟩
  · cases h

theorem native_get_version_ascii (M m p : Nat) :
    (native_get_version M m p).all (fun c => c.toNat < 128) = true := by
  rw [List.all_eq_true]
  intro c hc
  unfold native_get_version at hc
  rcases List.mem_append.mp hc with h1 | h1
  · simpa using (natToChars_good M c h1).2.1
  · rcases List.mem_cons.mp h1 with rfl | h2
    · decide
    · rcases List.mem_append.mp h2 with h3 | h3
      · simpa using (natToChars_good m c h3).2.1
      · rcases List.mem_cons.mp h3 with rfl | h4
        · decide
        · simpa using (natToChars_good p c h4).2.1

/-! ### The claims -/

/-- C1: for every input pair `(buffer, expectedByteCount)`, `decode`
validates that `len(buffer) == expectedByteCount` before any decoding work
is invoked, failing on a mismatch rather than proceeding. -/
theorem decode_validates_byte_count (arr : List Nat) (n : Int)
    (h : (arr.length : Int) ≠ n) : decode arr n = .error .valueError := by
  unfold decode opj_decode
  rw [if_pos h]

/-- Witness for C1: a buffer that decodes successfully at its true length of
7 bytes is rejected when the caller declares 3 bytes. -/
theorem decode_validates_byte_count_witness :
    ((([0xFF, 0x4F, 1, 1, 1, 8, 7] : List Nat).length : Int) ≠ 3) ∧
    decode [0xFF, 0x4F, 1, 1, 1, 8, 7] 3 = .error .valueError :=
  ⟨by decide,
   decode_validates_byte_count [0xFF, 0x4F, 1, 1, 1, 8, 7] 3 (by decide)⟩

/-- C2: the version accessor is a pure function of the native version
string; on the modelled native string `"major.minor.patch"` it returns the
3-tuple `(major, minor, patch)`, and every entry is non-negative. Being a
function of that string alone, repeated calls in one process (same native
string) return the same value. -/
theorem get_openjpeg_version_triple (M m p : Nat) :
    get_openjpeg_version (native_get_version M m p) =
      .ok [Int.ofNat M, Int.ofNat m, Int.ofNat p] ∧
    ∀ x ∈ [Int.ofNat M, Int.ofNat m, Int.ofNat p], 0 ≤ x := by
  constructor
  · refine gv_eq_ok _ _ (native_get_version_ascii M m p) ?_
    rw [splitDot_native]
    exact mapE_cons_ok _ _ _ _ _ (pyInt_natToChars M)
      (mapE_cons_ok _ _ _ _ _ (pyInt_natToChars m)
        (mapE_cons_ok _ _ _ _ _ (pyInt_natToChars p) rfl))
  · intro x hx
    simp only [List.mem_cons, List.not_mem_nil, or_false] at hx
    rcases hx with rfl | rfl | rfl <;> exact Int.ofNat_nonneg _

/-- C3: any error raised by the underlying decoding layer surfaces to
`decode`'s caller unchanged — the wrapper catches, swallows and replaces
nothing. -/
theorem decode_propagates_errors (arr : List Nat) (n : Int) (e : PyError)
    (h : opj_decode arr n = .error e) : decode arr n = .error e := h

/-- Witness for C3: the native layer's `InvalidMarkerError` on an empty
buffer reaches the caller of `decode` as exactly that error. -/
theorem decode_propagates_errors_witness :
    opj_decode [] 0 = .error .invalidMarker ∧
    decode [] 0 = .error .invalidMarker :=
  ⟨rfl, decode_propagates_errors [] 0 .invalidMarker rfl⟩

/-- C4: calling `decode` twice on the same buffer and byte count yields
bit-identical output: the second call, run in the state left behind by the
first, returns the same result as the first. -/
theorem decode_idempotent (w : World) (arr : List Nat) (n : Int) :
    (decodeSt ((decodeSt w arr n).2) arr n).1 = (decodeSt w arr n).1 := rfl

/-- C5: a decode never returns a partially-filled `PixelBuffer`: whenever it
returns a buffer at all, the sample array is complete — exactly
width × height × components entries. -/
theorem decode_complete_buffer (arr : List Nat) (n : Int) (buf : PixelBuffer)
    (h : decode arr n = .ok buf) :
    buf.samples.length = buf.width * buf.height * buf.components := by
  obtain ⟨hdr, _, hw, hh, hc, _, hlen, _⟩ := opj_decode_ok arr n buf h
  rw [hw, hh, hc]
  exact hlen

/-- Witness for C5: a concrete successful decode of a 1×1 single-component
stream yields a buffer with exactly 1 × 1 × 1 samples. -/
theorem decode_complete_buffer_witness :
    decode [0xFF, 0x4F, 1, 1, 1, 8, 7] 7 = .ok ⟨1, 1, 1, 8, [7]⟩ ∧
    (PixelBuffer.mk 1 1 1 8 [7]).samples.length =
      (PixelBuffer.mk 1 1 1 8 [7]).width *
      (PixelBuffer.mk 1 1 1 8 [7]).height *
      (PixelBuffer.mk 1 1 1 8 [7]).components :=
  ⟨rfl, decode_complete_buffer [0xFF, 0x4F, 1, 1, 1, 8, 7] 7 ⟨1, 1, 1, 8, [7]⟩ rfl⟩

/-- C6: no state persists across independent `decode` calls: a call leaves
the global store exactly as it found it, and its result does not depend on
the global store's contents. -/
theorem decode_stateless (w w2 : World) (arr : List Nat) (n : Int) :
    (decodeSt w arr n).2 = w ∧ (decodeSt w arr n).1 = (decodeSt w2 arr n).1 :=
  ⟨rfl, rfl⟩

/-- C7: a successful decode returns a pixel buffer whose shape (width,
height, component count), declared bit depth and sample range exactly match
the `ImageHeader` parsed from the input codestream. -/
theorem decode_matches_header (arr : List Nat) (n : Int) (buf : PixelBuffer)
    (h : decode arr n = .ok buf) :
    ∃ hdr, parseCodestream arr = .ok hdr ∧
      buf.width = hdr.width ∧ buf.height = hdr.height ∧
      buf.components = hdr.components ∧ buf.bitDepth = hdr.bitDepth ∧
      buf.samples.length = hdr.width * hdr.height * hdr.components ∧
      ∀ s ∈ buf.samples, s < 2 ^ hdr.bitDepth :=
  opj_decode_ok arr n buf h

/-- Witness for C7: the concrete decode of a 1×1, single-component, 8-bit
stream matches its parsed header in every field. -/
theorem decode_matches_header_witness :
    decode [0xFF, 0x4F, 1, 1, 1, 8, 7] 7 = .ok ⟨1, 1, 1, 8, [7]⟩ ∧
    ∃ hdr, parseCodestream [0xFF, 0x4F, 1, 1, 1, 8, 7] = .ok hdr ∧
      (PixelBuffer.mk 1 1 1 8 [7]).width = hdr.width ∧
      (PixelBuffer.mk 1 1 1 8 [7]).height = hdr.height ∧
      (PixelBuffer.mk 1 1 1 8 [7]).components = hdr.components ∧
      (PixelBuffer.mk 1 1 1 8 [7]).bitDepth = hdr.bitDepth ∧
      (PixelBuffer.mk 1 1 1 8 [7]).samples.length =
        hdr.width * hdr.height * hdr.components ∧
      ∀ s ∈ (PixelBuffer.mk 1 1 1 8 [7]).samples, s < 2 ^ hdr.bitDepth :=
  ⟨rfl, decode_matches_header [0xFF, 0x4F, 1, 1, 1, 8, 7] 7 ⟨1, 1, 1, 8, [7]⟩ rfl⟩

/-- C8: `get_openjpeg_version` returns a tuple with exactly one entry per
'.'-separated field of the native version string — a 3-tuple only when the
string has three fields. -/
theorem version_tuple_length (bs : List Char) (l : List Int)
    (h : get_openjpeg_version bs = .ok l) :
    l.length = (splitDot bs).length := by
  unfold get_openjpeg_version at h
  split at h
  · cases h
  · rename_i s ha
    split at h
    · cases h
    · rename_i ys hm
      cases h
      rw [(ascii_decode_ok_eq bs s ha).1] at hm
      exact mapE_length pyInt _ _ hm

/-- Witness for C8: the four-field native string `"2.3.1.1"` yields a
4-tuple, not a 3-tuple. -/
theorem version_tuple_length_witness :
    get_openjpeg_version ['2', '.', '3', '.', '1', '.', '1'] =
      .ok [2, 3, 1, 1] ∧
    ([2, 3, 1, 1] : List Int).length =
      (splitDot ['2', '.', '3', '.', '1', '.', '1']).length :=
  ⟨rfl, version_tuple_length ['2', '.', '3', '.', '1', '.', '1'] [2, 3, 1, 1] rfl⟩

/-- C9: when the native version byte string is not ASCII-decodable, or some
'.'-separated field is not a valid decimal integer literal,
`get_openjpeg_version` raises (`UnicodeDecodeError` or `ValueError`) rather
than returning a value; no error is caught inside the function. -/
theorem version_invalid_raises (bs : List Char)
    (h : bs.all (fun c => c.toNat < 128) = false ∨
      ∃ f ∈ splitDot bs, pyInt f = .error .valueError) :
    ∃ e, get_openjpeg_version bs = .error e ∧
      (e = .unicodeDecodeError ∨ e = .valueError) := by
  cases hgv : get_openjpeg_version bs with
  | error e => exact ⟨e, rfl, gv_error_classified bs e hgv⟩
  | ok l =>
    exfalso
    unfold get_openjpeg_version at hgv
    split at hgv
    · cases hgv
    · rename_i s ha
      split at hgv
      · cases hgv
      · rename_i ys hm
        obtain ⟨hs, hall⟩ := ascii_decode_ok_eq bs s ha
        subst hs
        rcases h with h1 | ⟨f, hf, he⟩
        · rw [hall] at h1
          cases h1
        · obtain ⟨y, hy⟩ := mapE_ok_mem pyInt _ ys hm f hf
          rw [he] at hy
          cases hy

/-- Witness for C9: the native string `"2.x"` has the non-numeric field
`"x"`, and the accessor raises rather than returning a tuple. -/
theorem version_invalid_raises_witness :
    (pyInt ['x'] = .error .valueError) ∧
    ∃ e, get_openjpeg_version ['2', '.', 'x'] = .error e ∧
      (e = .unicodeDecodeError ∨ e = .valueError) :=
  ⟨rfl, version_invalid_raises ['2', '.', 'x']
    (Or.inr ⟨['x'], by decide, rfl⟩)⟩

/-- C10: `decode(arr, nr_bytes)` is extensionally the native call
`_openjpeg.opj_decode(arr, nr_bytes)`: both arguments are forwarded
unchanged, and the result — value or error — is returned unchanged. -/
theorem decode_refines_native (arr : List Nat) (n : Int) :
    decode arr n = opj_decode arr n := rfl

end OpenJpeg
